import Mathlib

/-!
Verification of the Axec AppImage manager (`src/src-tauri/src/lib.rs`) against its
natural-language specification.

Shallow embedding conventions:
* Rust `String`/`&str` values are modelled as `List Char`.  All strings that the
  program manipulates at the points relevant to the claims are ASCII, where the
  distinction between Rust's Unicode-aware primitives and per-`Char` ASCII
  operations matters this is argued at the definition site.
* Filesystem state is modelled explicitly: a file is a `Loc` (directory path plus
  file name), the world holds the list of existing files and directories.  I/O
  primitives (`fs::copy`, `fs::remove_file`, `File::create`) are modelled as
  succeeding; the claims under verification quantify over the success/failure of
  the icon-extraction subprocess, which stays an explicit parameter.
* `std::process` interaction (`--appimage-extract`, launching) is abstracted into
  explicit outcome parameters carried by `ExtractEnv` / a `spawnResult` function.
-/

namespace Axec

/-! ### Character-level facts

`sanitize_filename` and `parse_appimage_name` classify characters with
`char::is_ascii_alphanumeric` and compare against `-`, `_`, ` `; Rust's
`str::to_lowercase` / `to_ascii_lowercase` agree with Lean's `Char.toLower`
(shift code points 65–90 by 32) on every character the program feeds them.
-/

theorem u32_le_iff (a b : UInt32) : a ≤ b ↔ a.toNat ≤ b.toNat := by
  rw [UInt32.le_def, BitVec.le_def]
  rfl

theorem isUpper_iff (c : Char) : c.isUpper = true ↔ 65 ≤ c.toNat ∧ c.toNat ≤ 90 := by
  simp only [Char.isUpper, ge_iff_le, Bool.and_eq_true, decide_eq_true_eq, u32_le_iff]
  exact Iff.rfl

theorem isLower_iff (c : Char) : c.isLower = true ↔ 97 ≤ c.toNat ∧ c.toNat ≤ 122 := by
  simp only [Char.isLower, ge_iff_le, Bool.and_eq_true, decide_eq_true_eq, u32_le_iff]
  exact Iff.rfl

theorem isDigit_iff (c : Char) : c.isDigit = true ↔ 48 ≤ c.toNat ∧ c.toNat ≤ 57 := by
  simp only [Char.isDigit, ge_iff_le, Bool.and_eq_true, decide_eq_true_eq, u32_le_iff]
  exact Iff.rfl

theorem toNat_ofNat_valid (n : Nat) (h : n.isValidChar) : (Char.ofNat n).toNat = n := by
  rw [Char.ofNat, dif_pos h]
  rfl

theorem toLower_of_isUpper (c : Char) (h : c.isUpper = true) :
    (Char.toLower c).toNat = c.toNat + 32 := by
  rw [isUpper_iff] at h
  have hv : ((Char.toNat c) + 32).isValidChar := by
    left
    have := h.2
    omega
  rw [Char.toLower, if_pos h]
  exact toNat_ofNat_valid _ hv

theorem toLower_of_not_isUpper (c : Char) (h : c.isUpper = false) :
    Char.toLower c = c := by
  rw [Char.toLower, if_neg]
  intro hc
  rw [← isUpper_iff] at hc
  rw [h] at hc
  exact Bool.false_ne_true hc

/-- Characters that the `sanitize_filename` map keeps unchanged:
`c.is_ascii_alphanumeric() || c == '-' || c == '_'`. -/
def keepOk (c : Char) : Bool := c.isAlphanum || c == '-' || c == '_'

/-- Characters that may occur in `sanitize_filename` output:
lowercase ASCII alphanumerics, `-`, `_`. -/
def sanOk (c : Char) : Bool := c.isDigit || c.isLower || c == '-' || c == '_'

theorem not_isUpper_of_sanOk (c : Char) (h : sanOk c = true) : c.isUpper = false := by
  simp only [sanOk, Bool.or_eq_true, beq_iff_eq] at h
  rw [← Bool.not_eq_true]
  intro hu
  rw [isUpper_iff] at hu
  rcases h with ((hd | hl) | h) | h
  · rw [isDigit_iff] at hd
    omega
  · rw [isLower_iff] at hl
    omega
  · subst h
    revert hu
    decide
  · subst h
    revert hu
    decide

theorem toLower_of_sanOk (c : Char) (h : sanOk c = true) : Char.toLower c = c :=
  toLower_of_not_isUpper c (not_isUpper_of_sanOk c h)

theorem sanOk_toLower_of_keepOk (c : Char) (h : keepOk c = true) :
    sanOk (Char.toLower c) = true := by
  by_cases hu : c.isUpper = true
  · have hb := (isUpper_iff c).mp hu
    have ht := toLower_of_isUpper c hu
    have : (Char.toLower c).isLower = true := by
      rw [isLower_iff]
      omega
    simp [sanOk, this]
  · have hu' : c.isUpper = false := Bool.not_eq_true _ ▸ hu
    have hc : sanOk c = true := by
      simp only [keepOk, Char.isAlphanum, Char.isAlpha, hu', Bool.or_eq_true, beq_iff_eq,
        Bool.false_eq_true, false_or] at h
      simp only [sanOk, Bool.or_eq_true, beq_iff_eq]
      tauto
    rw [toLower_of_sanOk c hc]
    exact hc

theorem keepOk_of_sanOk (c : Char) (h : sanOk c = true) : keepOk c = true := by
  simp only [sanOk, Bool.or_eq_true, beq_iff_eq] at h
  simp only [keepOk, Char.isAlphanum, Char.isAlpha, Bool.or_eq_true, beq_iff_eq]
  tauto

theorem toLower_eq_dash (c : Char) (h : Char.toLower c = '-') : c = '-' := by
  by_cases hu : c.isUpper = true
  · exfalso
    have hb := (isUpper_iff c).mp hu
    have ht := toLower_of_isUpper c hu
    rw [h] at ht
    have : ('-' : Char).toNat = 45 := by decide
    omega
  · rw [toLower_of_not_isUpper c (Bool.not_eq_true _ ▸ hu)] at h
    exact h

/-! ### The Identity Deriver: `sanitize_filename` and `parse_appimage_name` -/

/-- Per-character lowercasing.  Models Rust `str::to_lowercase` on the ASCII-only
strings `sanitize_filename` builds, and `to_ascii_lowercase` elsewhere (both map
exactly code points 65–90 up by 32, as `Char.toLower` does). -/
def lowerStr (s : List Char) : List Char := s.map Char.toLower

/-- Embeds `sanitize_filename`: map every character that is not ASCII
alphanumeric, `-` or `_` to `-`; trim `-` from both ends; lowercase. -/
def sanitize_filename (name : List Char) : List Char :=
  let filtered := name.map (fun c => if keepOk c then c else '-')
  let trimmed :=
    (((filtered.dropWhile (fun c => c == '-')).reverse.dropWhile (fun c => c == '-')).reverse)
  lowerStr trimmed

/-- Splits off the part of a file name after its last `.`:
`some (before, after)` if a `.` exists, `none` otherwise. -/
def lastDotSplit : List Char → Option (List Char × List Char)
  | [] => none
  | c :: cs =>
    match lastDotSplit cs with
    | some (b, a) => some (c :: b, a)
    | none => if c == '.' then some ([], cs) else none

/-- Models Rust `Path`'s stem/extension split on a file name
(`split_file_at_dot`): the extension is the part after the last `.`, except
that `".."` and a `.` in leading position yield no extension. -/
def splitFileAtDot (fname : List Char) : List Char × Option (List Char) :=
  if fname == "..".data then (fname, none)
  else
    match lastDotSplit fname with
    | none => (fname, none)
    | some ([], _) => (fname, none)
    | some (b, a) => (b, some a)

/-- `Path::file_stem` on a file name. -/
def file_stem (fname : List Char) : List Char := (splitFileAtDot fname).1

/-- `Path::extension` on a file name. -/
def file_extension (fname : List Char) : Option (List Char) := (splitFileAtDot fname).2

/-- Characters kept by the `parse_appimage_name` replacement:
`c.is_ascii_alphanumeric() || c == ' ' || c == '-' || c == '_'`. -/
def parseKeep (c : Char) : Bool := c.isAlphanum || c == ' ' || c == '-' || c == '_'

/-- Splitting on `' '` dropping empty chunks, with an accumulator for the word
being read (in reverse). -/
def wordsAux : List Char → List Char → List (List Char)
  | [], acc => if acc.isEmpty then [] else [acc.reverse]
  | c :: cs, acc =>
    if c == ' ' then
      if acc.isEmpty then wordsAux cs [] else acc.reverse :: wordsAux cs []
    else wordsAux cs (c :: acc)

/-- Models `str::split_whitespace` on the output of the `parse_appimage_name`
replacement step: that output only ever contains `' '` as a whitespace
character (every other whitespace character was itself replaced by `' '`),
so splitting on `' '` is exact. -/
def splitSpaces (s : List Char) : List (List Char) := wordsAux s []

/-- `Vec::join(" ")`. -/
def joinSpaces (ws : List (List Char)) : List Char := List.intercalate [' '] ws

/-- Models `str::trim` on strings whose only whitespace character is `' '`. -/
def trimSpaces (s : List Char) : List Char :=
  ((s.dropWhile (fun c => c == ' ')).reverse.dropWhile (fun c => c == ' ')).reverse

/-- Embeds `parse_appimage_name`, applied to the file-name component of the
path (`Path::file_stem` acts on the last path component; the `unwrap_or`
fallback `"appimage"` corresponds to a path with no file name, modelled by
`[]`).  Replaces every character that is not ASCII alphanumeric, space, `-` or
`_` by a space, collapses whitespace runs, and trims. -/
def parse_appimage_name (fname : List Char) : List Char :=
  let stem := if fname.isEmpty then "appimage".data else file_stem fname
  let base := stem.map (fun c => if parseKeep c then c else ' ')
  trimSpaces (joinSpaces (splitSpaces base))

/-! ### Filesystem model

Every file the program touches is `dir.join(fname)` for one of the two resolved
directories, so a file is identified by the pair (directory path, file name).
Directory contents are the `Loc`s with that directory component; `read_dir`
enumeration order is the list order (the spec leaves it platform-defined).
File creation/removal primitives are modelled as succeeding.
-/

/-- A file location: the directory it lives in and its file name. -/
structure Loc where
  dir : List Char
  fname : List Char
deriving DecidableEq

/-- The filesystem: existing files and existing directories. -/
structure World where
  files : List Loc
  dirs : List (List Char)
deriving DecidableEq

/-- `Path::join`, rendering the path as a string. -/
def pjoin (dir fname : List Char) : List Char := dir ++ '/' :: fname

/-- Creating (or overwriting, as `fs::copy` / `File::create` do) a file. -/
def createFile (l : Loc) (w : World) : World :=
  { w with files := l :: w.files.filter (fun x => !(x == l)) }

/-- `fs::remove_file`, modelled as succeeding (a no-op when absent). -/
def deleteFile (l : Loc) (w : World) : World :=
  { w with files := w.files.filter (fun x => !(x == l)) }

/-- `fs::create_dir_all` (idempotent). -/
def createDir (d : List Char) (w : World) : World :=
  { w with dirs := if w.dirs.contains d then w.dirs else d :: w.dirs }

/-- `Path::exists`. -/
def fileExists (l : Loc) (w : World) : Bool := w.files.contains l

/-- The files of a directory as `read_dir` yields them (file names). -/
def read_dir (dir : List Char) (w : World) : List (List Char) :=
  (w.files.filter (fun l => l.dir == dir)).map (fun l => l.fname)

/-- `APPLICATIONS_DIR` constant from the source. -/
def APPLICATIONS_DIR : List Char := ".local/share/applications".data

/-- The record returned by `list_apps` / `add_appimage`. -/
structure AppImageEntry where
  id : List Char
  name : List Char
  path : List Char
  icon_path : Option (List Char)
  desktop_file : List Char
deriving DecidableEq

/-- Embeds `ensure_dirs`.  `dataDir`/`homeDir` model `dirs::data_dir()` /
`dirs::home_dir()` (`none` when the platform directory cannot be determined);
`sandbox` models `in_flatpak_sandbox()` (a pure environment read).  Resolves
`storage = data_dir/axec/appimages` and the applications directory, creating
both. -/
def ensure_dirs (dataDir homeDir : Option (List Char)) (sandbox : Bool) (w : World) :
    Except (List Char) ((List Char × List Char) × World) :=
  match dataDir with
  | none => Except.error "XDG data dir not found".data
  | some dd =>
    let storage := pjoin dd "axec/appimages".data
    if sandbox then
      let apps := pjoin dd "applications".data
      Except.ok ((storage, apps), createDir apps (createDir storage w))
    else
      match homeDir with
      | none => Except.error "HOME not found".data
      | some hd =>
        let apps := pjoin hd APPLICATIONS_DIR
        Except.ok ((storage, apps), createDir apps (createDir storage w))

/-- The recognized icon extensions, in the order the source lists them. -/
def ICON_EXTS : List (List Char) := ["png".data, "svg".data, "ico".data, "xpm".data]

/-! ### Menu Entry Writer -/

/-- The exact text `write_desktop_file` writes (the Rust `format!` template with
`name`, the quoted exec path and the optional `Icon=` line interpolated). -/
def write_desktop_content (name exec_str : List Char) (icon_path : Option (List Char)) :
    List Char :=
  let icon_line := match icon_path with
    | some p => "Icon=".data ++ p
    | none => []
  "[Desktop Entry]\nType=Application\nName=".data ++ name
    ++ "\nExec=\"".data ++ exec_str
    ++ "\" %U\nTerminal=false\nCategories=Utility;\n".data ++ icon_line
    ++ "\nX-AppImage-Version=1\nX-AppImage-Integrate=false\n".data

/-- A content store for desktop files, keyed by full path (existence is tracked
in `World`; content only matters for claim C9). -/
def storeWrite (store : List (List Char × List Char)) (path content : List Char) :
    List (List Char × List Char) :=
  (path, content) :: store.filter (fun kv => !(kv.1 == path))

/-- Reading a file's content from the store. -/
def storeRead (store : List (List Char × List Char)) (path : List Char) :
    Option (List Char) :=
  (store.find? (fun kv => kv.1 == path)).map (fun kv => kv.2)

/-! ### Icon Extractor -/

/-- Outcome of the parts of `extract_icon` that touch the outside world: the
temporary directory creation, the `--appimage-extract` subprocess (spawn
success and exit status), the tree of files it extracted under
`squashfs-root` (paths relative to it), and the final `fs::copy` outcome. -/
structure ExtractEnv where
  tmpdirOk : Bool
  spawnOk : Bool
  exitSuccess : Bool
  tree : List (List Char)
  copyOk : Bool

/-- `some f` iff `p` names `f` directly inside directory `sub`. -/
def directChildName (sub : List Char) (p : List Char) : Option (List Char) :=
  let n := sub.length + 1
  if p.take n == sub ++ ['/'] then
    let f := p.drop n
    if f.isEmpty || f.contains '/' then none else some f
  else none

/-- `fs::read_dir` over the extracted tree: file names directly inside `sub`. -/
def read_subdir (sub : List Char) (tree : List (List Char)) : List (List Char) :=
  tree.filterMap (directChildName sub)

/-- The candidate icon paths collected from one icon subdirectory: entries whose
extension lowercases into the recognized set, as full paths under the root.
(The source first checks `dir.is_dir()`; a missing directory simply has no
entries here.) -/
def dirCandidates (sub : List Char) (tree : List (List Char)) : List (List Char) :=
  (read_subdir sub tree).filterMap (fun f =>
    match (splitFileAtDot f).2 with
    | some e => if ICON_EXTS.contains (lowerStr e) then some (sub ++ '/' :: f) else none
    | none => none)

/-- The icon-theme subdirectories searched, in source order. -/
def ICON_DIRS : List (List Char) :=
  ["usr/share/icons/hicolor/256x256/apps".data,
   "usr/share/icons/hicolor/128x128/apps".data,
   "usr/share/icons/hicolor/64x64/apps".data,
   "usr/share/pixmaps".data]

/-- The last path component. -/
def fileNameOf (p : List Char) : List Char :=
  (p.reverse.takeWhile (fun c => !(c == '/'))).reverse

/-- Embeds `extract_icon`.  Returns the copied icon's path (or `none` on any
internal failure — the Rust signature is `Option<PathBuf>`, there is no error
channel) and the world, which changes only by the final copy of the chosen
candidate to `target_dir/{base_id}.{ext}`.  The `_appimage_path` argument only
feeds the abstracted subprocess.  The temporary directory is scoped to this
call and not part of `World`. -/
def extract_icon (env : ExtractEnv) (_appimage_path : List Char) (target_dir : List Char)
    (base_id : List Char) (w : World) : Option (List Char) × World :=
  if !env.tmpdirOk then (none, w)
  else if !env.spawnOk then (none, w)
  else if !env.exitSuccess then (none, w)
  else
    let candidates :=
      ".DirIcon".data :: (ICON_DIRS.map (fun sub => dirCandidates sub env.tree)).flatten
    match candidates.find? (fun p => env.tree.contains p) with
    | none => (none, w)
    | some icon_src =>
      let ext := match (splitFileAtDot (fileNameOf icon_src)).2 with
        | some e => lowerStr e
        | none => "png".data
      let dest_fname := base_id ++ '.' :: ext
      if env.copyOk then
        (some (pjoin target_dir dest_fname), createFile ⟨target_dir, dest_fname⟩ w)
      else (none, w)

/-! ### Registry Operations -/

/-- The `list_apps` loop body for one directory entry: `none` for files whose
extension is missing or does not lowercase to `appimage`, otherwise the entry
rebuilt from the file name (display name and id re-derived, icon looked up by
probing the four extensions, menu-entry path computed without an existence
check). -/
def listEntry (storage apps_dir : List Char) (w1 : World) (fname : List Char) :
    Option AppImageEntry :=
  match (splitFileAtDot fname).2 with
  | none => none
  | some ext =>
    if lowerStr ext == "appimage".data then
      let name := parse_appimage_name fname
      let id := sanitize_filename name
      let desktop_file := pjoin apps_dir ("axec-".data ++ id ++ ".desktop".data)
      let icon_path :=
        (ICON_EXTS.find? (fun e => fileExists ⟨storage, id ++ '.' :: e⟩ w1)).map
          (fun e => pjoin storage (id ++ '.' :: e))
      some { id := id, name := name, path := pjoin storage fname,
             icon_path := icon_path, desktop_file := desktop_file }
    else none

/-- Embeds `list_apps`: resolve dirs, enumerate the storage directory, keep
files whose extension lowercases to `appimage`, and rebuild each entry from its
file name. -/
def list_apps (dataDir homeDir : Option (List Char)) (sandbox : Bool) (w : World) :
    Except (List Char) (List AppImageEntry) × World :=
  match ensure_dirs dataDir homeDir sandbox w with
  | Except.error e => (Except.error e, w)
  | Except.ok ((storage, apps_dir), w1) =>
    (Except.ok ((read_dir storage w1).filterMap (listEntry storage apps_dir w1)), w1)

/-- Embeds `add_appimage`.  `src_fname` is the file-name component of the
caller-supplied source path, `src_exists` models `src.exists()`.  On success
the bundle is copied to `storage/{id}.AppImage` (made executable — permission
bits are not part of the model), icon extraction is attempted, and outside the
sandbox the desktop file `apps_dir/axec-{id}.desktop` is written.

NOTE (claim C2): the Rust source declares `desktop_path` inside the
`if !in_flatpak_sandbox()` block but reads it when building the returned
`AppImageEntry`, which does not compile (E0425).  The definition below embeds
the evident intent, also described by the spec: the path is computed
unconditionally and returned even when, sandboxed, the file is never written. -/
def add_appimage (src_fname : List Char) (src_exists : Bool)
    (dataDir homeDir : Option (List Char)) (sandbox : Bool) (env : ExtractEnv)
    (w : World) : Except (List Char) AppImageEntry × World :=
  if !src_exists then (Except.error "File not found".data, w)
  else
    match ensure_dirs dataDir homeDir sandbox w with
    | Except.error e => (Except.error e, w)
    | Except.ok ((storage, apps_dir), w1) =>
      let name := parse_appimage_name src_fname
      let id := sanitize_filename name
      let dest_fname := id ++ ".AppImage".data
      let dest_path := pjoin storage dest_fname
      let w2 := createFile ⟨storage, dest_fname⟩ w1
      let iconRes := extract_icon env dest_path storage id w2
      let desktop_fname := "axec-".data ++ id ++ ".desktop".data
      let w3 := if !sandbox then createFile ⟨apps_dir, desktop_fname⟩ iconRes.2 else iconRes.2
      let desktop_path := pjoin apps_dir desktop_fname
      (Except.ok { id := id, name := name, path := dest_path,
                   icon_path := iconRes.1, desktop_file := desktop_path }, w3)

/-- Embeds `remove_app`: delete the bundle under both extension casings
(tracking whether any existed), best-effort-delete every icon variant, and
outside the sandbox delete the desktop file if present (also tracked);
error `"App not found"` iff nothing tracked was removed. -/
def remove_app (id : List Char) (dataDir homeDir : Option (List Char)) (sandbox : Bool)
    (w : World) : Except (List Char) Unit × World :=
  match ensure_dirs dataDir homeDir sandbox w with
  | Except.error e => (Except.error e, w)
  | Except.ok ((storage, apps_dir), w1) =>
    let step := fun (acc : Bool × World) (ext : List Char) =>
      let l : Loc := ⟨storage, id ++ '.' :: ext⟩
      if fileExists l acc.2 then (true, deleteFile l acc.2) else acc
    let s1 := ["AppImage".data, "appimage".data].foldl step (false, w1)
    let w2 := ICON_EXTS.foldl (fun wa e => deleteFile ⟨storage, id ++ '.' :: e⟩ wa) s1.2
    let s2 :=
      if !sandbox then
        let d : Loc := ⟨apps_dir, "axec-".data ++ id ++ ".desktop".data⟩
        if fileExists d w2 then (true, deleteFile d w2) else (s1.1, w2)
      else (s1.1, w2)
    if s2.1 then (Except.ok (), s2.2) else (Except.error "App not found".data, s2.2)

/-- Embeds `launch_app`.  `spawnResult` models `Command::spawn` (the launch
detaches; only spawn success matters).  Besides the result, the list of paths
the operation actually spawned is returned, so "no process spawned" is
expressible. -/
def launch_app (id : List Char) (dataDir homeDir : Option (List Char)) (sandbox : Bool)
    (spawnResult : List Char → Except (List Char) Unit) (w : World) :
    (Except (List Char) Unit × List (List Char)) × World :=
  match ensure_dirs dataDir homeDir sandbox w with
  | Except.error e => ((Except.error e, []), w)
  | Except.ok ((storage, _apps_dir), w1) =>
    match (["AppImage".data, "appimage".data].map (fun e => id ++ '.' :: e)).find?
        (fun f => fileExists ⟨storage, f⟩ w1) with
    | none => ((Except.error "AppImage not found".data, []), w1)
    | some f =>
      match spawnResult (pjoin storage f) with
      | Except.ok _ => ((Except.ok (), [pjoin storage f]), w1)
      | Except.error e => ((Except.error e, [pjoin storage f]), w1)

/-! ### Properties of the Identity Deriver -/

theorem dropWhile_eq_self_of_all {p : Char → Bool} {l : List Char}
    (h : ∀ c ∈ l, p c = false) : l.dropWhile p = l := by
  cases l with
  | nil => rfl
  | cons c cs =>
    rw [List.dropWhile_cons_of_neg]
    rw [h c (List.mem_cons_self c cs)]
    exact Bool.false_ne_true

theorem dropWhile_eq_self_of_head {p : Char → Bool} {l : List Char}
    (h : ∀ c, l.head? = some c → p c = false) : l.dropWhile p = l := by
  cases l with
  | nil => rfl
  | cons c cs =>
    rw [List.dropWhile_cons_of_neg]
    rw [h c rfl]
    exact Bool.false_ne_true

theorem getLast?_of_suffix {l₁ l₂ : List Char} (h : l₁ <:+ l₂) (hne : l₁ ≠ []) :
    l₂.getLast? = l₁.getLast? := by
  obtain ⟨w, rfl⟩ := h
  exact List.getLast?_append_of_ne_nil w hne

/-- Every character of `sanitize_filename`'s intermediate `filtered` string
satisfies `keepOk`. -/
theorem mem_filtered_keepOk (name : List Char) (c : Char)
    (h : c ∈ name.map (fun c => if keepOk c then c else '-')) : keepOk c = true := by
  obtain ⟨a, _, ha⟩ := List.mem_map.mp h
  by_cases hk : keepOk a = true
  · rw [if_pos hk] at ha
    rw [← ha]
    exact hk
  · rw [if_neg hk] at ha
    rw [← ha]
    decide

/-- The trimmed string inside `sanitize_filename`, before lowercasing. -/
def sanitizeTrimmed (name : List Char) : List Char :=
  (((name.map (fun c => if keepOk c then c else '-')).dropWhile
      (fun c => c == '-')).reverse.dropWhile (fun c => c == '-')).reverse

theorem sanitize_filename_eq (name : List Char) :
    sanitize_filename name = lowerStr (sanitizeTrimmed name) := rfl

theorem mem_sanitizeTrimmed_keepOk (name : List Char) (c : Char)
    (h : c ∈ sanitizeTrimmed name) : keepOk c = true := by
  apply mem_filtered_keepOk name
  rw [sanitizeTrimmed, List.mem_reverse] at h
  have h2 := (List.dropWhile_suffix (fun c => c == '-')).mem h
  rw [List.mem_reverse] at h2
  exact (List.dropWhile_suffix (fun c => c == '-')).mem h2

/-- Claim C4's alphabet property: every output character of `sanitize_filename`
is a lowercase ASCII alphanumeric, `-`, or `_`. -/
theorem sanitize_all_sanOk (name : List Char) :
    (sanitize_filename name).all sanOk = true := by
  rw [sanitize_filename_eq, lowerStr, List.all_map, List.all_eq_true]
  intro c hc
  exact sanOk_toLower_of_keepOk c (mem_sanitizeTrimmed_keepOk name c hc)

theorem sanitize_head_not_dash (name : List Char) (c : Char)
    (h : (sanitize_filename name).head? = some c) : (c == '-') = false := by
  rw [sanitize_filename_eq, lowerStr, List.head?_map] at h
  rw [beq_eq_false_iff_ne]
  match ht : (sanitizeTrimmed name).head? with
  | none => rw [ht] at h; exact absurd h (by simp)
  | some b =>
    rw [ht] at h
    simp only [Option.map_some', Option.some.injEq] at h
    -- the head of the trimmed string is the head of the left-trimmed string
    have hb : (b == '-') = false := by
      have hy := List.head?_dropWhile_not (fun c => c == '-')
        (((name.map (fun c => if keepOk c then c else '-')).dropWhile
          (fun c => c == '-')).reverse)
      set x := (name.map (fun c => if keepOk c then c else '-')).dropWhile (fun c => c == '-')
        with hx
      set y := x.reverse.dropWhile (fun c => c == '-') with hy2
      have htr : sanitizeTrimmed name = y.reverse := rfl
      rw [htr] at ht
      rw [List.head?_reverse] at ht
      have hyne : y ≠ [] := by
        intro hnil
        rw [hnil] at ht
        exact absurd ht (by simp)
      have hsfx : y <:+ x.reverse := List.dropWhile_suffix _
      have := getLast?_of_suffix hsfx hyne
      rw [ht] at this
      rw [List.getLast?_reverse] at this
      have hhx := List.head?_dropWhile_not (fun c => c == '-')
        (name.map (fun c => if keepOk c then c else '-'))
      rw [← hx] at hhx
      rw [this] at hhx
      exact hhx
    rw [← h]
    intro hcontra
    have := toLower_eq_dash b hcontra
    rw [this] at hb
    simp at hb

theorem sanitize_getLast_not_dash (name : List Char) (c : Char)
    (h : (sanitize_filename name).getLast? = some c) : (c == '-') = false := by
  rw [sanitize_filename_eq, lowerStr, List.getLast?_map] at h
  rw [beq_eq_false_iff_ne]
  match ht : (sanitizeTrimmed name).getLast? with
  | none => rw [ht] at h; exact absurd h (by simp)
  | some b =>
    rw [ht] at h
    simp only [Option.map_some', Option.some.injEq] at h
    have hb : (b == '-') = false := by
      have htr : sanitizeTrimmed name =
        (((name.map (fun c => if keepOk c then c else '-')).dropWhile
          (fun c => c == '-')).reverse.dropWhile (fun c => c == '-')).reverse := rfl
      rw [htr, List.getLast?_reverse] at ht
      have hhx := List.head?_dropWhile_not (fun c => c == '-')
        ((name.map (fun c => if keepOk c then c else '-')).dropWhile
          (fun c => c == '-')).reverse
      rw [ht] at hhx
      exact hhx
    rw [← h]
    intro hcontra
    have := toLower_eq_dash b hcontra
    rw [this] at hb
    simp at hb

theorem parseKeep_of_sanOk (c : Char) (h : sanOk c = true) : parseKeep c = true := by
  simp only [sanOk, Bool.or_eq_true, beq_iff_eq] at h
  simp only [parseKeep, Char.isAlphanum, Char.isAlpha, Bool.or_eq_true, beq_iff_eq]
  tauto

theorem sanOk_ne_dot (c : Char) (h : sanOk c = true) : (c == '.') = false := by
  rw [beq_eq_false_iff_ne]
  intro hc
  subst hc
  exact absurd h (by decide)

theorem sanOk_ne_space (c : Char) (h : sanOk c = true) : (c == ' ') = false := by
  rw [beq_eq_false_iff_ne]
  intro hc
  subst hc
  exact absurd h (by decide)

/-- A string of `sanOk` characters with no `-` at either end is a fixpoint of
`sanitize_filename`. -/
theorem sanitize_fix (s : List Char) (hall : s.all sanOk = true)
    (hh : ∀ c, s.head? = some c → (c == '-') = false)
    (hl : ∀ c, s.getLast? = some c → (c == '-') = false) :
    sanitize_filename s = s := by
  rw [List.all_eq_true] at hall
  have hfiltered : s.map (fun c => if keepOk c then c else '-') = s := by
    rw [show s.map (fun c => if keepOk c then c else '-')
        = s.map (fun c => c) from List.map_congr_left
          (fun c hc => if_pos (keepOk_of_sanOk c (hall c hc)))]
    exact List.map_id' s
  rw [sanitize_filename, hfiltered]
  have hdrop1 : s.dropWhile (fun c => c == '-') = s :=
    dropWhile_eq_self_of_head hh
  rw [hdrop1]
  have hdrop2 : s.reverse.dropWhile (fun c => c == '-') = s.reverse := by
    apply dropWhile_eq_self_of_head
    intro c hc
    rw [List.head?_reverse] at hc
    exact hl c hc
  rw [hdrop2, List.reverse_reverse]
  rw [lowerStr]
  rw [show s.map Char.toLower = s.map (fun c => c) from List.map_congr_left
    (fun c hc => toLower_of_sanOk c (hall c hc))]
  exact List.map_id' s

theorem lastDotSplit_none {l : List Char} (h : ∀ c ∈ l, (c == '.') = false) :
    lastDotSplit l = none := by
  induction l with
  | nil => rfl
  | cons c cs ih =>
    rw [lastDotSplit]
    rw [ih (fun a ha => h a (List.mem_cons_of_mem c ha))]
    rw [h c (List.mem_cons_self c cs)]
    rfl

theorem lastDotSplit_append_dot {b t : List Char} (ht : lastDotSplit t = none) :
    lastDotSplit (b ++ '.' :: t) = some (b, t) := by
  induction b with
  | nil =>
    rw [List.nil_append, lastDotSplit, ht]
    rfl
  | cons c cs ih =>
    rw [List.cons_append, lastDotSplit, ih]

/-- Splitting `{id}.{ext}` at its last dot, when `id` is nonempty and `ext` is
dot-free of length at least 2, yields stem `id` and extension `ext`. -/
theorem splitFileAtDot_append (id : List Char) (ext : List Char) (hne : id ≠ [])
    (hlong : 2 ≤ ext.length) (hext : lastDotSplit ext = none) :
    splitFileAtDot (id ++ '.' :: ext) = (id, some ext) := by
  have hsplit : lastDotSplit (id ++ '.' :: ext) = some (id, ext) :=
    lastDotSplit_append_dot hext
  have hne2 : (id ++ '.' :: ext == "..".data) = false := by
    rw [beq_eq_false_iff_ne]
    intro hcontra
    have hlen := congrArg List.length hcontra
    simp at hlen
    omega
  rw [splitFileAtDot, hne2]
  simp only [Bool.false_eq_true, if_false, hsplit]

/-- A nonempty string of `sanOk` characters is a fixpoint of
`parse_appimage_name` once the `.AppImage` extension is appended. -/
theorem parse_fix (id : List Char) (hne : id ≠ []) (hall : id.all sanOk = true) :
    parse_appimage_name (id ++ ".AppImage".data) = id := by
  rw [List.all_eq_true] at hall
  have hsp : ∀ c ∈ id, (c == ' ') = false := fun c hc => sanOk_ne_space c (hall c hc)
  have hstem : file_stem (id ++ ".AppImage".data) = id := by
    rw [file_stem]
    rw [show ".AppImage".data = '.' :: "AppImage".data from rfl]
    rw [splitFileAtDot_append id "AppImage".data hne (by decide) (by decide)]
  have hempty : (id ++ ".AppImage".data).isEmpty = false := by
    cases id with
    | nil => exact absurd rfl hne
    | cons c cs => rfl
  rw [parse_appimage_name, hempty]
  simp only [Bool.false_eq_true, if_false]
  rw [hstem]
  have hbase : id.map (fun c => if parseKeep c then c else ' ') = id := by
    rw [show id.map (fun c => if parseKeep c then c else ' ')
        = id.map (fun c => c) from List.map_congr_left
          (fun c hc => if_pos (parseKeep_of_sanOk c (hall c hc)))]
    exact List.map_id' id
  rw [hbase]
  have hwords : ∀ (l : List Char), (∀ c ∈ l, (c == ' ') = false) →
      ∀ acc, wordsAux l acc = if acc.reverse ++ l = [] then [] else [acc.reverse ++ l] := by
    intro l
    induction l with
    | nil =>
      intro _ acc
      cases acc with
      | nil => rfl
      | cons a as =>
        rw [wordsAux]
        have h1 : ((a :: as).reverse ++ ([] : List Char)) ≠ [] := by
          simp
        rw [if_neg h1]
        simp [wordsAux]
    | cons c cs ih =>
      intro h acc
      rw [wordsAux]
      rw [h c (List.mem_cons_self c cs)]
      simp only [Bool.false_eq_true, if_false]
      rw [ih (fun a ha => h a (List.mem_cons_of_mem c ha)) (c :: acc)]
      have h1 : acc.reverse ++ c :: cs ≠ [] := by simp
      rw [if_neg h1]
      have h2 : (c :: acc).reverse ++ cs ≠ [] := by simp
      rw [if_neg h2]
      rw [List.reverse_cons, List.append_assoc]
      rfl
  rw [splitSpaces, hwords id hsp []]
  rw [List.reverse_nil, List.nil_append]
  rw [if_neg hne]
  have hjoin : joinSpaces [id] = id := by
    rw [joinSpaces, List.intercalate]
    simp
  rw [hjoin]
  rw [trimSpaces]
  rw [dropWhile_eq_self_of_all hsp]
  rw [dropWhile_eq_self_of_all (fun c hc => hsp c (List.mem_reverse.mp hc))]
  exact List.reverse_reverse id

/-- The storage-roundtrip at the heart of claim C1: a nonempty id derived by
the Identity Deriver is reproduced exactly when the stored file name
`{id}.AppImage` is parsed and sanitized again during listing. -/
theorem id_roundtrip (src : List Char)
    (hne : sanitize_filename (parse_appimage_name src) ≠ []) :
    parse_appimage_name
        (sanitize_filename (parse_appimage_name src) ++ ".AppImage".data)
      = sanitize_filename (parse_appimage_name src) ∧
    sanitize_filename (sanitize_filename (parse_appimage_name src))
      = sanitize_filename (parse_appimage_name src) := by
  set id := sanitize_filename (parse_appimage_name src) with hid
  have hall : id.all sanOk = true := sanitize_all_sanOk _
  constructor
  · exact parse_fix id hne hall
  · exact sanitize_fix id hall
      (fun c hc => sanitize_head_not_dash _ c (hid ▸ hc))
      (fun c hc => sanitize_getLast_not_dash _ c (hid ▸ hc))

/-! ### Reduction lemmas for the resolved directories -/

/-- The applications directory `ensure_dirs` resolves for the two modes. -/
def apps_dir_of (dd hd : List Char) (sandbox : Bool) : List Char :=
  if sandbox then pjoin dd "applications".data else pjoin hd APPLICATIONS_DIR

/-- The world after `ensure_dirs` created both directories. -/
def ensured_world (dd hd : List Char) (sandbox : Bool) (w : World) : World :=
  createDir (apps_dir_of dd hd sandbox) (createDir (pjoin dd "axec/appimages".data) w)

theorem ensure_dirs_eq (dd hd : List Char) (sandbox : Bool) (w : World) :
    ensure_dirs (some dd) (some hd) sandbox w
      = Except.ok ((pjoin dd "axec/appimages".data, apps_dir_of dd hd sandbox),
                   ensured_world dd hd sandbox w) := by
  cases sandbox <;> rfl

theorem ensured_world_files (dd hd : List Char) (sandbox : Bool) (w : World) :
    (ensured_world dd hd sandbox w).files = w.files := rfl

theorem list_apps_eq (dd hd : List Char) (sandbox : Bool) (w : World) :
    list_apps (some dd) (some hd) sandbox w
      = (Except.ok ((read_dir (pjoin dd "axec/appimages".data)
            (ensured_world dd hd sandbox w)).filterMap
              (listEntry (pjoin dd "axec/appimages".data) (apps_dir_of dd hd sandbox)
                (ensured_world dd hd sandbox w))),
         ensured_world dd hd sandbox w) := by
  rw [list_apps, ensure_dirs_eq]

/-! ### Toolkit: effects of the filesystem primitives -/

theorem mem_createFile_self (l : Loc) (w : World) : l ∈ (createFile l w).files :=
  List.mem_cons_self l _

theorem mem_createFile_of_mem {x l : Loc} {w : World} (hx : x ∈ w.files) (hne : x ≠ l) :
    x ∈ (createFile l w).files := by
  apply List.mem_cons_of_mem
  rw [List.mem_filter]
  refine ⟨hx, ?_⟩
  simp [hne]

theorem mem_of_mem_createFile {x l : Loc} {w : World} (hx : x ∈ (createFile l w).files) :
    x = l ∨ x ∈ w.files := by
  rcases List.mem_cons.mp hx with h | h
  · exact Or.inl h
  · exact Or.inr (List.mem_filter.mp h).1

theorem nodup_createFile (l : Loc) {w : World} (h : w.files.Nodup) :
    (createFile l w).files.Nodup := by
  rw [createFile]
  refine List.Nodup.cons ?_ (h.filter _)
  intro hmem
  have := (List.mem_filter.mp hmem).2
  simp at this

theorem contains_iff_mem {l : List Loc} {x : Loc} : l.contains x = true ↔ x ∈ l :=
  List.elem_iff

theorem fileExists_iff_mem {x : Loc} {w : World} : fileExists x w = true ↔ x ∈ w.files :=
  contains_iff_mem

theorem fileExists_deleteFile_of_ne {x l : Loc} {w : World} (hne : x ≠ l) :
    fileExists x (deleteFile l w) = fileExists x w := by
  rw [Bool.eq_iff_iff, fileExists_iff_mem, fileExists_iff_mem, deleteFile]
  constructor
  · intro h
    exact (List.mem_filter.mp h).1
  · intro h
    rw [List.mem_filter]
    refine ⟨h, ?_⟩
    simp [hne]

theorem fileExists_deleteFile_self (l : Loc) (w : World) :
    fileExists l (deleteFile l w) = false := by
  rw [← Bool.not_eq_true, fileExists_iff_mem, deleteFile]
  intro h
  have := (List.mem_filter.mp h).2
  simp at this

/-! ### Toolkit: the file names of the different artifact families differ -/

theorem ne_of_getLast?_ne {l1 l2 : List Char} (h : l1.getLast? ≠ l2.getLast?) : l1 ≠ l2 :=
  fun he => h (by rw [he])

theorem getLast?_append_concrete (x s : List Char) (c : Char) (hs : s ≠ [])
    (hl : s.getLast? = some c) : (x ++ s).getLast? = some c := by
  rw [List.getLast?_append_of_ne_nil x hs, hl]

theorem loc_ne_of_fname_ne {d1 d2 f1 f2 : List Char} (h : f1 ≠ f2) :
    (⟨d1, f1⟩ : Loc) ≠ ⟨d2, f2⟩ := by
  intro he
  injection he with _ h2
  exact h h2

theorem bundleA_getLast (id : List Char) :
    (id ++ ".AppImage".data).getLast? = some 'e' :=
  getLast?_append_concrete id _ _ (by decide) (by decide)

theorem bundlea_getLast (id : List Char) :
    (id ++ ".appimage".data).getLast? = some 'e' :=
  getLast?_append_concrete id _ _ (by decide) (by decide)

theorem desktop_getLast (id : List Char) :
    ("axec-".data ++ id ++ ".desktop".data).getLast? = some 'p' :=
  getLast?_append_concrete ("axec-".data ++ id) _ _ (by decide) (by decide)

theorem icon_getLast (ext : List Char) (h : ext ∈ ICON_EXTS) (id : List Char) :
    (id ++ '.' :: ext).getLast? = some 'g' ∨ (id ++ '.' :: ext).getLast? = some 'o' ∨
    (id ++ '.' :: ext).getLast? = some 'm' := by
  simp only [ICON_EXTS, List.mem_cons, List.not_mem_nil, or_false] at h
  rcases h with h | h | h | h <;> subst h
  · exact Or.inl (getLast?_append_concrete id _ _ (by decide) (by decide))
  · exact Or.inl (getLast?_append_concrete id _ _ (by decide) (by decide))
  · exact Or.inr (Or.inl (getLast?_append_concrete id _ _ (by decide) (by decide)))
  · exact Or.inr (Or.inr (getLast?_append_concrete id _ _ (by decide) (by decide)))

theorem bundleA_ne_bundlea (id : List Char) :
    id ++ ".AppImage".data ≠ id ++ ".appimage".data := by
  intro h
  have := List.append_cancel_left h
  exact absurd this (by decide)

theorem icon_ne_bundleA (id id2 ext : List Char) (h : ext ∈ ICON_EXTS) :
    id ++ '.' :: ext ≠ id2 ++ ".AppImage".data := by
  apply ne_of_getLast?_ne
  rw [bundleA_getLast]
  rcases icon_getLast ext h id with hg | hg | hg <;> rw [hg] <;> simp

theorem icon_ne_bundlea (id id2 ext : List Char) (h : ext ∈ ICON_EXTS) :
    id ++ '.' :: ext ≠ id2 ++ ".appimage".data := by
  apply ne_of_getLast?_ne
  rw [bundlea_getLast]
  rcases icon_getLast ext h id with hg | hg | hg <;> rw [hg] <;> simp

theorem desktop_ne_bundleA (id id2 : List Char) :
    "axec-".data ++ id ++ ".desktop".data ≠ id2 ++ ".AppImage".data := by
  apply ne_of_getLast?_ne
  rw [desktop_getLast, bundleA_getLast]
  simp

theorem desktop_ne_bundlea (id id2 : List Char) :
    "axec-".data ++ id ++ ".desktop".data ≠ id2 ++ ".appimage".data := by
  apply ne_of_getLast?_ne
  rw [desktop_getLast, bundlea_getLast]
  simp

theorem desktop_ne_icon (id id2 ext : List Char) (h : ext ∈ ICON_EXTS) :
    "axec-".data ++ id ++ ".desktop".data ≠ id2 ++ '.' :: ext := by
  apply ne_of_getLast?_ne
  rw [desktop_getLast]
  rcases icon_getLast ext h id2 with hg | hg | hg <;> rw [hg] <;> simp

theorem pjoin_fname_inj {dir f1 f2 : List Char} (h : pjoin dir f1 = pjoin dir f2) :
    f1 = f2 := by
  rw [pjoin, pjoin] at h
  have := List.append_cancel_left h
  injection this

/-! ### Claim theorems -/

/-- Claim C3, counterexample: on the literal source filename
`MyApp-1.2.3_x86_64.AppImage` the name parser does **not** return
`MyApp 1 2 3 x86 64` (it keeps `-` and `_`, replacing only the dots), so the
claimed display-name/id pair is wrong. -/
theorem C3_counterexample :
    ¬(parse_appimage_name "MyApp-1.2.3_x86_64.AppImage".data
        = "MyApp 1 2 3 x86 64".data ∧
      sanitize_filename "MyApp 1 2 3 x86 64".data = "myapp-1-2-3-x86-64".data) := by
  decide

/-- Claim C3 as amended: for the literal source filename
`MyApp-1.2.3_x86_64.AppImage`, `parse_appimage_name` returns the display name
`MyApp-1 2 3_x86_64` (hyphens and underscores are kept; each dot becomes a
space) and `sanitize_filename` of that display name returns the id
`myapp-1-2-3_x86_64`. -/
theorem C3_amended :
    parse_appimage_name "MyApp-1.2.3_x86_64.AppImage".data
      = "MyApp-1 2 3_x86_64".data ∧
    sanitize_filename "MyApp-1 2 3_x86_64".data = "myapp-1-2-3_x86_64".data := by
  decide

/-- Claim C4: for every input string, `sanitize_filename`'s output consists
only of lowercase ASCII alphanumerics, `-` and `_` (`sanOk`), and neither its
first nor its last character is `-`. -/
theorem C4_sanitize_output (name : List Char) :
    (sanitize_filename name).all sanOk = true ∧
    ((sanitize_filename name).head? == some '-') = false ∧
    ((sanitize_filename name).getLast? == some '-') = false := by
  refine ⟨sanitize_all_sanOk name, ?_, ?_⟩
  · match hh : (sanitize_filename name).head? with
    | none => rfl
    | some c =>
      have hc := sanitize_head_not_dash name c hh
      rw [beq_eq_false_iff_ne] at hc ⊢
      intro hcon
      exact hc (Option.some.inj hcon)
  · match hh : (sanitize_filename name).getLast? with
    | none => rfl
    | some c =>
      have hc := sanitize_getLast_not_dash name c hh
      rw [beq_eq_false_iff_ne] at hc ⊢
      intro hcon
      exact hc (Option.some.inj hcon)

/-- Claim C9's described layout: the descriptor as a list of lines, each
terminated by a newline — the `[Desktop Entry]` type marker,
`Type=Application`, the display name, the quoted exec path with the `%U`
placeholder, `Terminal=false`, `Categories=Utility;`, an `Icon=` line when an
icon path is supplied (an empty line otherwise), and the two fixed
`X-AppImage-` markers. -/
def desktop_lines (name exec_str : List Char) (icon_path : Option (List Char)) :
    List (List Char) :=
  ["[Desktop Entry]".data,
   "Type=Application".data,
   "Name=".data ++ name,
   "Exec=\"".data ++ exec_str ++ "\" %U".data,
   "Terminal=false".data,
   "Categories=Utility;".data,
   (match icon_path with | some p => "Icon=".data ++ p | none => []),
   "X-AppImage-Version=1".data,
   "X-AppImage-Integrate=false".data]

/-- The claim-side rendering of `desktop_lines` as file content. -/
def desktopContentSpec (name exec_str : List Char) (icon_path : Option (List Char)) :
    List Char :=
  ((desktop_lines name exec_str icon_path).map (fun l => l ++ ['\n'])).flatten

/-- Claim C9: `write_desktop_file` writes exactly the fixed key/value
descriptor described by `desktop_lines`, and the write fully replaces any
existing file at the entry path. -/
theorem C9_write_desktop_file (name exec_str : List Char) (icon_path : Option (List Char))
    (store : List (List Char × List Char)) (entry_path : List Char) :
    write_desktop_content name exec_str icon_path
      = desktopContentSpec name exec_str icon_path ∧
    storeRead (storeWrite store entry_path (write_desktop_content name exec_str icon_path))
        entry_path
      = some (write_desktop_content name exec_str icon_path) := by
  constructor
  · have h1 : "[Desktop Entry]\nType=Application\nName=".data
        = "[Desktop Entry]".data ++ '\n' :: "Type=Application".data
            ++ '\n' :: "Name=".data := by decide
    have h2 : "\" %U\nTerminal=false\nCategories=Utility;\n".data
        = "\" %U".data ++ '\n' :: "Terminal=false".data
            ++ '\n' :: "Categories=Utility;".data ++ ['\n'] := by decide
    have h3 : "\nX-AppImage-Version=1\nX-AppImage-Integrate=false\n".data
        = '\n' :: "X-AppImage-Version=1".data
            ++ '\n' :: "X-AppImage-Integrate=false".data ++ ['\n'] := by decide
    cases icon_path with
    | none =>
      simp only [write_desktop_content, desktopContentSpec, desktop_lines, h1, h2, h3,
        List.map, List.flatten, List.append_assoc, List.cons_append, List.nil_append,
        List.append_nil]
    | some p =>
      simp only [write_desktop_content, desktopContentSpec, desktop_lines, h1, h2, h3,
        List.map, List.flatten, List.append_assoc, List.cons_append, List.nil_append,
        List.append_nil]
  · rw [storeRead, storeWrite]
    rw [List.find?_cons_of_pos _ (by simp)]
    rfl

/-- Claim C6: `extract_icon`'s failure surface is total — its result type is
`Option` (no error channel), and whenever the extraction subprocess cannot be
spawned or exits with nonzero status it returns `none` and leaves the world
(in particular every file of `storage_dir`) untouched. -/
theorem C6_extract_icon_failure (env : ExtractEnv) (appimage_path target_dir base_id : List Char)
    (w : World) (h : env.spawnOk = false ∨ env.exitSuccess = false) :
    extract_icon env appimage_path target_dir base_id w = (none, w) := by
  rw [extract_icon]
  cases htmp : env.tmpdirOk with
  | false => rfl
  | true =>
    rcases h with h | h
    · rw [h]
      rfl
    · cases hsp : env.spawnOk with
      | false => rfl
      | true =>
        rw [h]
        rfl

/-- Witness for C6 at a concrete environment. -/
theorem C6_extract_icon_failure_witness :
    extract_icon ⟨true, true, false, ["usr/share/pixmaps/z.png".data], true⟩
        "/s/a.AppImage".data "/s".data "a".data ⟨[], []⟩
      = (none, ⟨[], []⟩) :=
  C6_extract_icon_failure _ _ _ _ _ (Or.inr rfl)

/-- Claim C7: when the source path does not exist, `add_appimage` fails with an
error containing "not found" before resolving or creating any directory and
before writing any file: the world is returned unchanged. -/
theorem C7_add_missing_source (src_fname : List Char) (dataDir homeDir : Option (List Char))
    (sandbox : Bool) (env : ExtractEnv) (w : World) :
    add_appimage src_fname false dataDir homeDir sandbox env w
      = (Except.error "File not found".data, w) ∧
    "not found".data <:+: "File not found".data := by
  constructor
  · rfl
  · decide

/-- Claim C8: when neither `{id}.AppImage` nor `{id}.appimage` exists in
storage, `launch_app` fails with an error containing "not found" and spawns
nothing; when one of the two exists (the `AppImage` casing probed first) and
the spawn succeeds, it returns success having spawned exactly that bundle. -/
theorem C8_launch (id dd hd : List Char) (sandbox : Bool)
    (spawnResult : List Char → Except (List Char) Unit) (w : World) :
    (fileExists ⟨pjoin dd "axec/appimages".data, id ++ ".AppImage".data⟩ w = false →
     fileExists ⟨pjoin dd "axec/appimages".data, id ++ ".appimage".data⟩ w = false →
     (launch_app id (some dd) (some hd) sandbox spawnResult w).1
        = (Except.error "AppImage not found".data, []) ∧
     "not found".data <:+: "AppImage not found".data) ∧
    (fileExists ⟨pjoin dd "axec/appimages".data, id ++ ".AppImage".data⟩ w = true →
     spawnResult (pjoin (pjoin dd "axec/appimages".data) (id ++ ".AppImage".data))
        = Except.ok () →
     (launch_app id (some dd) (some hd) sandbox spawnResult w).1
        = (Except.ok (),
           [pjoin (pjoin dd "axec/appimages".data) (id ++ ".AppImage".data)])) ∧
    (fileExists ⟨pjoin dd "axec/appimages".data, id ++ ".AppImage".data⟩ w = false →
     fileExists ⟨pjoin dd "axec/appimages".data, id ++ ".appimage".data⟩ w = true →
     spawnResult (pjoin (pjoin dd "axec/appimages".data) (id ++ ".appimage".data))
        = Except.ok () →
     (launch_app id (some dd) (some hd) sandbox spawnResult w).1
        = (Except.ok (),
           [pjoin (pjoin dd "axec/appimages".data) (id ++ ".appimage".data)])) := by
  refine ⟨?_, ?_, ?_⟩
  · intro h1 h2
    refine ⟨?_, by decide⟩
    simp only [fileExists] at h1 h2
    cases sandbox <;>
      simp [launch_app, ensure_dirs, List.find?, fileExists, createDir] at h1 h2 ⊢ <;>
      simp [h1, h2]
  · intro h1 h2
    simp only [fileExists] at h1
    cases sandbox <;>
      simp [launch_app, ensure_dirs, List.find?, fileExists, createDir] at h1 ⊢ <;>
      simp [h1, h2]
  · intro h1 h2 h3
    simp only [fileExists] at h1 h2
    cases sandbox <;>
      simp [launch_app, ensure_dirs, List.find?, fileExists, createDir] at h1 h2 ⊢ <;>
      simp [h1, h2, h3]

theorem listEntry_some (storage apps : List Char) (w1 : World) (f ext : List Char)
    (hsplit : (splitFileAtDot f).2 = some ext)
    (hlow : lowerStr ext = "appimage".data) :
    ∃ e, listEntry storage apps w1 f = some e ∧ e.path = pjoin storage f ∧
      e.id = sanitize_filename (parse_appimage_name f) := by
  simp only [listEntry, hsplit, hlow, beq_self_eq_true, if_true]
  exact ⟨_, rfl, rfl, rfl⟩

theorem listEntry_path_id (storage apps : List Char) (w1 : World) (f : List Char)
    (e : AppImageEntry) (h : listEntry storage apps w1 f = some e) :
    e.path = pjoin storage f ∧ e.id = sanitize_filename (parse_appimage_name f) := by
  rw [listEntry] at h
  rcases hs : (splitFileAtDot f).2 with _ | ext
  · rw [hs] at h
    simp at h
  · rw [hs] at h
    by_cases hl : (lowerStr ext == "appimage".data) = true
    · simp only [hl, if_true] at h
      obtain rfl := Option.some.inj h
      exact ⟨rfl, rfl⟩
    · rw [Bool.not_eq_true] at hl
      simp only [hl] at h
      simp at h

/-- The extension accepted by `list_apps` cannot contain a dot. -/
theorem lowercase_appimage_no_dot (ext : List Char) (hlow : lowerStr ext = "appimage".data) :
    lastDotSplit ext = none := by
  apply lastDotSplit_none
  intro c hc
  rw [beq_eq_false_iff_ne]
  intro hcon
  subst hcon
  have hmem : Char.toLower '.' ∈ lowerStr ext := List.mem_map_of_mem _ hc
  rw [hlow, show Char.toLower '.' = '.' from by decide] at hmem
  exact absurd hmem (by decide)

theorem lowercase_appimage_length (ext : List Char) (hlow : lowerStr ext = "appimage".data) :
    ext.length = 8 := by
  have := congrArg List.length hlow
  rw [lowerStr, List.length_map] at this
  rw [this]
  decide

/-- Claim C10 fails as stated at the degenerate id `""`: the stored file
`.APPIMAGE` has no extension in Rust's path semantics (its only dot is
leading), so `list_apps` skips it entirely and returns no entry for it, while
`remove_app`/`launch_app` do report not-found. -/
theorem C10_counterexample :
    (list_apps (some "/d".data) (some "/h".data) false
        ⟨[⟨"/d/axec/appimages".data, ".APPIMAGE".data⟩], []⟩).1 = Except.ok [] ∧
    (remove_app [] (some "/d".data) (some "/h".data) false
        ⟨[⟨"/d/axec/appimages".data, ".APPIMAGE".data⟩], []⟩).1
      = Except.error "App not found".data ∧
    (launch_app [] (some "/d".data) (some "/h".data) false (fun _ => Except.ok ())
        ⟨[⟨"/d/axec/appimages".data, ".APPIMAGE".data⟩], []⟩).1.1
      = Except.error "AppImage not found".data :=
  ⟨rfl, rfl, rfl⟩

/-- Claim C10 as amended (restricted to nonempty ids): `list_apps` accepts any
letter-casing of the bundle extension, while `remove_app` and `launch_app`
probe only the two literal casings; so when only `{id}.{EXT}` is stored for a
nonempty `id` and a casing `EXT` other than the two literals (with no desktop
entry outside the sandbox), `list_apps` returns an entry for the file while
`remove_app` and `launch_app` report not-found (the latter spawning nothing). -/
theorem C10_extension_casing (id dd hd ext : List Char) (sandbox : Bool)
    (spawnResult : List Char → Except (List Char) Unit) (w : World)
    (hne : id ≠ [])
    (hlow : lowerStr ext = "appimage".data)
    (hmem : fileExists ⟨pjoin dd "axec/appimages".data, id ++ '.' :: ext⟩ w = true)
    (hA : fileExists ⟨pjoin dd "axec/appimages".data, id ++ ".AppImage".data⟩ w = false)
    (ha : fileExists ⟨pjoin dd "axec/appimages".data, id ++ ".appimage".data⟩ w = false)
    (hdesk : sandbox = false →
      fileExists ⟨pjoin hd APPLICATIONS_DIR, "axec-".data ++ id ++ ".desktop".data⟩ w
        = false) :
    (∃ es, (list_apps (some dd) (some hd) sandbox w).1 = Except.ok es ∧
       ∃ e, e ∈ es ∧ e.path = pjoin (pjoin dd "axec/appimages".data) (id ++ '.' :: ext)) ∧
    (remove_app id (some dd) (some hd) sandbox w).1 = Except.error "App not found".data ∧
    (launch_app id (some dd) (some hd) sandbox spawnResult w).1
      = (Except.error "AppImage not found".data, []) := by
  have hsplit : (splitFileAtDot (id ++ '.' :: ext)).2 = some ext := by
    rw [splitFileAtDot_append id ext hne
      (by rw [lowercase_appimage_length ext hlow]; decide)
      (lowercase_appimage_no_dot ext hlow)]
  refine ⟨?_, ?_, ?_⟩
  · rw [list_apps_eq]
    refine ⟨_, rfl, ?_⟩
    obtain ⟨e, he, hp, _⟩ := listEntry_some (pjoin dd "axec/appimages".data)
      (apps_dir_of dd hd sandbox) (ensured_world dd hd sandbox w)
      (id ++ '.' :: ext) ext hsplit hlow
    refine ⟨e, ?_, hp⟩
    apply List.mem_filterMap.mpr
    refine ⟨id ++ '.' :: ext, ?_, he⟩
    rw [read_dir]
    apply List.mem_map.mpr
    refine ⟨⟨pjoin dd "axec/appimages".data, id ++ '.' :: ext⟩, ?_, rfl⟩
    rw [List.mem_filter]
    refine ⟨?_, by simp⟩
    rw [ensured_world_files]
    exact fileExists_iff_mem.mp hmem
  · have hA' : fileExists ⟨pjoin dd "axec/appimages".data, id ++ ".AppImage".data⟩
        (ensured_world dd hd sandbox w) = false := hA
    have ha' : fileExists ⟨pjoin dd "axec/appimages".data, id ++ ".appimage".data⟩
        (ensured_world dd hd sandbox w) = false := ha
    rw [remove_app, ensure_dirs_eq]
    simp only [List.foldl, hA', ha', Bool.false_eq_true, if_false, ICON_EXTS]
    cases hsb : sandbox with
    | true => rfl
    | false =>
      have hd' := hdesk hsb
      simp only [Bool.not_false, if_true]
      rw [fileExists_deleteFile_of_ne (loc_ne_of_fname_ne
          (desktop_ne_icon id id "xpm".data (by decide)))]
      rw [fileExists_deleteFile_of_ne (loc_ne_of_fname_ne
          (desktop_ne_icon id id "ico".data (by decide)))]
      rw [fileExists_deleteFile_of_ne (loc_ne_of_fname_ne
          (desktop_ne_icon id id "svg".data (by decide)))]
      rw [fileExists_deleteFile_of_ne (loc_ne_of_fname_ne
          (desktop_ne_icon id id "png".data (by decide)))]
      have hd2 : fileExists
          ⟨apps_dir_of dd hd false, "axec-".data ++ id ++ ".desktop".data⟩
          (ensured_world dd hd false w) = false := by
        rw [apps_dir_of]
        simp only [if_false]
        exact hd'
      rw [hd2]
      rfl
  · simp only [fileExists] at hA ha
    cases sandbox <;>
      simp [launch_app, ensure_dirs, List.find?, fileExists, createDir] at hA ha ⊢ <;>
      simp [hA, ha]

/-- Witness for C10 at a concrete world holding only `foo.APPIMAGE`. -/
theorem C10_extension_casing_witness :
    (∃ es, (list_apps (some "/d".data) (some "/h".data) false
        ⟨[⟨"/d/axec/appimages".data, "foo.APPIMAGE".data⟩], []⟩).1 = Except.ok es ∧
       ∃ e, e ∈ es ∧ e.path = pjoin (pjoin "/d".data "axec/appimages".data)
         ("foo".data ++ '.' :: "APPIMAGE".data)) ∧
    (remove_app "foo".data (some "/d".data) (some "/h".data) false
        ⟨[⟨"/d/axec/appimages".data, "foo.APPIMAGE".data⟩], []⟩).1
      = Except.error "App not found".data ∧
    (launch_app "foo".data (some "/d".data) (some "/h".data) false
        (fun _ => Except.ok ())
        ⟨[⟨"/d/axec/appimages".data, "foo.APPIMAGE".data⟩], []⟩).1
      = (Except.error "AppImage not found".data, []) := by
  have h := C10_extension_casing "foo".data "/d".data "/h".data "APPIMAGE".data false
    (fun _ => Except.ok ())
    ⟨[⟨"/d/axec/appimages".data, "foo.APPIMAGE".data⟩], []⟩
    (by decide) (by decide) (by decide) (by decide) (by decide) (fun _ => by decide)
  exact h

/-- Claim C5: `remove_app` returns the error "App not found" (which contains
"not found") precisely when no bundle file existed under either extension
casing and, outside the sandbox, no menu entry existed; the icon files never
enter that condition (their best-effort deletion is invisible to the result). -/
theorem C5_remove_not_found_iff (id dd hd : List Char) (sandbox : Bool) (w : World) :
    ((remove_app id (some dd) (some hd) sandbox w).1
        = Except.error "App not found".data ↔
      (fileExists ⟨pjoin dd "axec/appimages".data, id ++ ".AppImage".data⟩ w = false ∧
       fileExists ⟨pjoin dd "axec/appimages".data, id ++ ".appimage".data⟩ w = false ∧
       (sandbox = false →
         fileExists ⟨pjoin hd APPLICATIONS_DIR, "axec-".data ++ id ++ ".desktop".data⟩ w
           = false))) ∧
    "not found".data <:+: "App not found".data := by
  refine ⟨?_, by decide⟩
  simp only [remove_app, ensure_dirs_eq, List.foldl, ICON_EXTS]
  have e1 : fileExists ⟨pjoin dd "axec/appimages".data, id ++ ".AppImage".data⟩ w
      = fileExists ⟨pjoin dd "axec/appimages".data, id ++ ".AppImage".data⟩
          (ensured_world dd hd sandbox w) := rfl
  have e2 : fileExists ⟨pjoin dd "axec/appimages".data, id ++ ".appimage".data⟩ w
      = fileExists ⟨pjoin dd "axec/appimages".data, id ++ ".appimage".data⟩
          (ensured_world dd hd sandbox w) := rfl
  have rA : ∀ w', fileExists ⟨pjoin dd "axec/appimages".data, id ++ ".appimage".data⟩
        (deleteFile ⟨pjoin dd "axec/appimages".data, id ++ ".AppImage".data⟩ w')
      = fileExists ⟨pjoin dd "axec/appimages".data, id ++ ".appimage".data⟩ w' :=
    fun w' => fileExists_deleteFile_of_ne
      (loc_ne_of_fname_ne (bundleA_ne_bundlea id).symm)
  have rd1 : ∀ d w', fileExists ⟨d, "axec-".data ++ id ++ ".desktop".data⟩
        (deleteFile ⟨pjoin dd "axec/appimages".data, id ++ '.' :: "png".data⟩ w')
      = fileExists ⟨d, "axec-".data ++ id ++ ".desktop".data⟩ w' :=
    fun d w' => fileExists_deleteFile_of_ne
      (loc_ne_of_fname_ne (desktop_ne_icon id id "png".data (by decide)))
  have rd2 : ∀ d w', fileExists ⟨d, "axec-".data ++ id ++ ".desktop".data⟩
        (deleteFile ⟨pjoin dd "axec/appimages".data, id ++ '.' :: "svg".data⟩ w')
      = fileExists ⟨d, "axec-".data ++ id ++ ".desktop".data⟩ w' :=
    fun d w' => fileExists_deleteFile_of_ne
      (loc_ne_of_fname_ne (desktop_ne_icon id id "svg".data (by decide)))
  have rd3 : ∀ d w', fileExists ⟨d, "axec-".data ++ id ++ ".desktop".data⟩
        (deleteFile ⟨pjoin dd "axec/appimages".data, id ++ '.' :: "ico".data⟩ w')
      = fileExists ⟨d, "axec-".data ++ id ++ ".desktop".data⟩ w' :=
    fun d w' => fileExists_deleteFile_of_ne
      (loc_ne_of_fname_ne (desktop_ne_icon id id "ico".data (by decide)))
  have rd4 : ∀ d w', fileExists ⟨d, "axec-".data ++ id ++ ".desktop".data⟩
        (deleteFile ⟨pjoin dd "axec/appimages".data, id ++ '.' :: "xpm".data⟩ w')
      = fileExists ⟨d, "axec-".data ++ id ++ ".desktop".data⟩ w' :=
    fun d w' => fileExists_deleteFile_of_ne
      (loc_ne_of_fname_ne (desktop_ne_icon id id "xpm".data (by decide)))
  have rdA : ∀ d w', fileExists ⟨d, "axec-".data ++ id ++ ".desktop".data⟩
        (deleteFile ⟨pjoin dd "axec/appimages".data, id ++ ".AppImage".data⟩ w')
      = fileExists ⟨d, "axec-".data ++ id ++ ".desktop".data⟩ w' :=
    fun d w' => fileExists_deleteFile_of_ne
      (loc_ne_of_fname_ne (desktop_ne_bundleA id id))
  have rda : ∀ d w', fileExists ⟨d, "axec-".data ++ id ++ ".desktop".data⟩
        (deleteFile ⟨pjoin dd "axec/appimages".data, id ++ ".appimage".data⟩ w')
      = fileExists ⟨d, "axec-".data ++ id ++ ".desktop".data⟩ w' :=
    fun d w' => fileExists_deleteFile_of_ne
      (loc_ne_of_fname_ne (desktop_ne_bundlea id id))
  rw [e1, e2]
  cases sandbox with
  | true =>
    cases hA : fileExists ⟨pjoin dd "axec/appimages".data, id ++ ".AppImage".data⟩
        (ensured_world dd hd true w) with
    | true =>
      simp only [hA, Bool.false_eq_true, Bool.not_false, Bool.not_true, if_false, if_true]
      try dsimp only
      rw [rA]
      cases ha : fileExists ⟨pjoin dd "axec/appimages".data, id ++ ".appimage".data⟩
          (ensured_world dd hd true w) <;> simp [ha]
    | false =>
      simp only [hA, Bool.false_eq_true, Bool.not_false, Bool.not_true, if_false, if_true]
      cases ha : fileExists ⟨pjoin dd "axec/appimages".data, id ++ ".appimage".data⟩
          (ensured_world dd hd true w) <;> simp [ha]
  | false =>
    have e3 : ∀ w', fileExists
          ⟨apps_dir_of dd hd false, "axec-".data ++ id ++ ".desktop".data⟩ w'
        = fileExists ⟨pjoin hd APPLICATIONS_DIR, "axec-".data ++ id ++ ".desktop".data⟩
            w' := fun _ => rfl
    have e4 : fileExists
          ⟨pjoin hd APPLICATIONS_DIR, "axec-".data ++ id ++ ".desktop".data⟩ w
        = fileExists ⟨pjoin hd APPLICATIONS_DIR, "axec-".data ++ id ++ ".desktop".data⟩
            (ensured_world dd hd false w) := rfl
    cases hA : fileExists ⟨pjoin dd "axec/appimages".data, id ++ ".AppImage".data⟩
        (ensured_world dd hd false w) with
    | true =>
      simp only [hA, Bool.false_eq_true, Bool.not_false, Bool.not_true, if_false, if_true]
      try dsimp only
      rw [rA]
      cases ha : fileExists ⟨pjoin dd "axec/appimages".data, id ++ ".appimage".data⟩
          (ensured_world dd hd false w) with
      | true =>
        simp only [ha, Bool.false_eq_true, Bool.not_false, Bool.not_true, if_false, if_true]
        try dsimp only
        rw [rd4, rd3, rd2, rd1, rda, rdA, e3]
        cases hk : fileExists
            ⟨pjoin hd APPLICATIONS_DIR, "axec-".data ++ id ++ ".desktop".data⟩
            (ensured_world dd hd false w) <;> simp [hk, e4]
      | false =>
        simp only [ha, Bool.false_eq_true, Bool.not_false, Bool.not_true, if_false, if_true]
        try dsimp only
        rw [rd4, rd3, rd2, rd1, rdA, e3]
        cases hk : fileExists
            ⟨pjoin hd APPLICATIONS_DIR, "axec-".data ++ id ++ ".desktop".data⟩
            (ensured_world dd hd false w) <;> simp [hk, e4]
    | false =>
      simp only [hA, Bool.false_eq_true, Bool.not_false, Bool.not_true, if_false, if_true]
      cases ha : fileExists ⟨pjoin dd "axec/appimages".data, id ++ ".appimage".data⟩
          (ensured_world dd hd false w) with
      | true =>
        simp only [ha, Bool.false_eq_true, Bool.not_false, Bool.not_true, if_false, if_true]
        try dsimp only
        rw [rd4, rd3, rd2, rd1, rda, e3]
        cases hk : fileExists
            ⟨pjoin hd APPLICATIONS_DIR, "axec-".data ++ id ++ ".desktop".data⟩
            (ensured_world dd hd false w) <;> simp [hk, e4]
      | false =>
        simp only [ha, Bool.false_eq_true, Bool.not_false, Bool.not_true, if_false, if_true]
        try dsimp only
        rw [rd4, rd3, rd2, rd1, e3]
        cases hk : fileExists
            ⟨pjoin hd APPLICATIONS_DIR, "axec-".data ++ id ++ ".desktop".data⟩
            (ensured_world dd hd false w) <;> simp [hk, e4] <;> exact hk

/-- Witness for C5 on the empty world: nothing to remove, so the error is
"App not found". -/
theorem C5_remove_not_found_iff_witness :
    (remove_app "foo".data (some "/d".data) (some "/h".data) false ⟨[], []⟩).1
      = Except.error "App not found".data :=
  (C5_remove_not_found_iff "foo".data "/d".data "/h".data false ⟨[], []⟩).1.mpr
    ⟨rfl, rfl, fun _ => rfl⟩

/-! ### The world after `extract_icon`: unchanged, or one icon file copied in -/

theorem fileExists_createFile_of_ne {x l : Loc} {w : World} (hne : x ≠ l) :
    fileExists x (createFile l w) = fileExists x w := by
  rw [Bool.eq_iff_iff, fileExists_iff_mem, fileExists_iff_mem]
  constructor
  · intro h
    rcases mem_of_mem_createFile h with h | h
    · exact absurd h hne
    · exact h
  · intro h
    exact mem_createFile_of_mem h hne

theorem takeWhile_append_stop {p : Char → Bool} {xs : List Char}
    (hxs : ∀ c ∈ xs, p c = true) {y : Char} (hy : p y = false) (ys : List Char) :
    (xs ++ y :: ys).takeWhile p = xs := by
  induction xs with
  | nil =>
    rw [List.nil_append, List.takeWhile_cons_of_neg]
    rw [hy]
    exact Bool.false_ne_true
  | cons c cs ih =>
    rw [List.cons_append, List.takeWhile_cons_of_pos (hxs c (List.mem_cons_self c cs))]
    rw [ih (fun a ha => hxs a (List.mem_cons_of_mem c ha))]

theorem fileNameOf_append (sub f : List Char) (hsl : f.contains '/' = false) :
    fileNameOf (sub ++ '/' :: f) = f := by
  have hxs : ∀ c ∈ f.reverse, (!(c == '/')) = true := by
    intro c hc
    rw [List.mem_reverse] at hc
    have : ¬(c = '/') := by
      intro hcon
      subst hcon
      rw [← List.elem_iff] at hc
      rw [List.contains] at hsl
      rw [hsl] at hc
      exact Bool.false_ne_true hc
    simp [this]
  have hy : (!(('/' : Char) == '/')) = false := by decide
  rw [fileNameOf, List.reverse_append, List.reverse_cons, List.append_assoc,
    List.singleton_append]
  rw [takeWhile_append_stop hxs hy sub.reverse]
  exact List.reverse_reverse f

theorem read_subdir_shape {sub : List Char} {tree : List (List Char)} {f : List Char}
    (h : f ∈ read_subdir sub tree) : f.contains '/' = false := by
  rw [read_subdir] at h
  obtain ⟨p, _, hp⟩ := List.mem_filterMap.mp h
  rw [directChildName] at hp
  by_cases h1 : (p.take (sub.length + 1) == sub ++ ['/']) = true
  · simp only [h1, if_true] at hp
    by_cases h2 : ((p.drop (sub.length + 1)).isEmpty
        || (p.drop (sub.length + 1)).contains '/') = true
    · simp only [h2, if_true] at hp
      exact absurd hp (by simp)
    · simp only [h2, Bool.false_eq_true, if_false] at hp
      obtain rfl := Option.some.inj hp
      rw [Bool.or_eq_true] at h2
      push_neg at h2
      cases hb : (p.drop (sub.length + 1)).contains '/' with
      | false => rfl
      | true => exact absurd hb h2.2
  · rw [Bool.not_eq_true] at h1
    simp only [h1, Bool.false_eq_true, if_false] at hp
    exact absurd hp (by simp)

/-- The extension under which `extract_icon` stores whatever candidate it
picked is always one of the four recognized ones (`.DirIcon` has no extension
and defaults to `png`; directory candidates were filtered on exactly this
condition). -/
theorem candidate_ext (tree : List (List Char)) (icon_src : List Char)
    (h : icon_src ∈
      ".DirIcon".data :: (ICON_DIRS.map (fun sub => dirCandidates sub tree)).flatten) :
    (match (splitFileAtDot (fileNameOf icon_src)).2 with
     | some e => lowerStr e
     | none => "png".data) ∈ ICON_EXTS := by
  rcases List.mem_cons.mp h with h | h
  · subst h
    decide
  · obtain ⟨l, hl, hsrc⟩ := List.mem_flatten.mp h
    obtain ⟨sub, _, rfl⟩ := List.mem_map.mp hl
    rw [dirCandidates] at hsrc
    obtain ⟨f, hf, hmatch⟩ := List.mem_filterMap.mp hsrc
    rcases hsp : (splitFileAtDot f).2 with _ | e
    · rw [hsp] at hmatch
      exact absurd hmatch (by simp)
    · rw [hsp] at hmatch
      by_cases hc : ICON_EXTS.contains (lowerStr e) = true
      · simp only [hc, if_true] at hmatch
        obtain rfl := Option.some.inj hmatch
        rw [fileNameOf_append sub f (read_subdir_shape hf)]
        rw [hsp]
        exact List.elem_iff.mp hc
      · rw [Bool.not_eq_true] at hc
        simp only [hc, Bool.false_eq_true, if_false] at hmatch
        exact absurd hmatch (by simp)

/-- `extract_icon` either leaves the world unchanged or creates exactly one
file `{base_id}.{ext}` in the target directory, with `ext` one of the four
recognized icon extensions. -/
theorem extract_icon_world (env : ExtractEnv) (p tgt bid : List Char) (w : World) :
    (extract_icon env p tgt bid w).2 = w ∨
    ∃ ext, ext ∈ ICON_EXTS ∧
      (extract_icon env p tgt bid w).2 = createFile ⟨tgt, bid ++ '.' :: ext⟩ w := by
  obtain ⟨td, sp, ex, tree, cp⟩ := env
  rw [extract_icon]
  cases td with
  | false => exact Or.inl rfl
  | true =>
    cases sp with
    | false => exact Or.inl rfl
    | true =>
      cases ex with
      | false => exact Or.inl rfl
      | true =>
        rcases hf : (".DirIcon".data
            :: (ICON_DIRS.map (fun sub => dirCandidates sub tree)).flatten).find?
              (fun q => tree.contains q) with _ | icon_src
        · simp only [hf]
          exact Or.inl rfl
        · simp only [hf]
          cases cp with
          | false => exact Or.inl rfl
          | true =>
            right
            refine ⟨_, candidate_ext tree icon_src (List.mem_of_find?_eq_some hf), rfl⟩

/-- Claim C2, proved of the modelled intent (see the note on `add_appimage`:
the Rust source as written does not compile here, since `desktop_path` is
scoped to the non-sandbox branch yet read when building the returned entry):
every successful add returns `apps_dir/axec-{id}.desktop` as the entry's
`desktop_file`, and in sandboxed mode that file is never written — if it was
absent before the add it is still absent after. -/
theorem C2_desktop_path_computed (src_fname dd hd : List Char) (sandbox : Bool)
    (env : ExtractEnv) (w : World) :
    ∃ entry w',
      add_appimage src_fname true (some dd) (some hd) sandbox env w
        = (Except.ok entry, w') ∧
      entry.desktop_file
        = pjoin (apps_dir_of dd hd sandbox) ("axec-".data ++ entry.id ++ ".desktop".data) ∧
      (sandbox = true →
        fileExists ⟨apps_dir_of dd hd true, "axec-".data ++ entry.id ++ ".desktop".data⟩ w
          = false →
        fileExists ⟨apps_dir_of dd hd true, "axec-".data ++ entry.id ++ ".desktop".data⟩ w'
          = false) := by
  cases sandbox with
  | false =>
    refine ⟨_, _, rfl, rfl, ?_⟩
    intro hcon
    exact absurd hcon Bool.false_ne_true
  | true =>
    refine ⟨_, _, rfl, rfl, ?_⟩
    intro _ h0
    set id := sanitize_filename (parse_appimage_name src_fname) with hid
    set stg := pjoin dd "axec/appimages".data with hstg
    set dsk : Loc := ⟨apps_dir_of dd hd true, "axec-".data ++ id ++ ".desktop".data⟩
      with hdsk
    simp only [Bool.not_true, Bool.false_eq_true, if_false]
    rw [show createDir (pjoin dd "applications".data) (createDir stg w)
      = ensured_world dd hd true w from rfl]
    have h1 : fileExists dsk (createFile ⟨stg, id ++ ".AppImage".data⟩
        (ensured_world dd hd true w)) = false := by
      rw [fileExists_createFile_of_ne (loc_ne_of_fname_ne (desktop_ne_bundleA id id))]
      exact h0
    rcases extract_icon_world env (pjoin stg (id ++ ".AppImage".data)) stg id
        (createFile ⟨stg, id ++ ".AppImage".data⟩ (ensured_world dd hd true w)) with
      hw | ⟨ext, hext, hw⟩
    · rw [hw]
      exact h1
    · rw [hw]
      rw [fileExists_createFile_of_ne (loc_ne_of_fname_ne (desktop_ne_icon id id ext hext))]
      exact h1

/-- Witness for C2 at a concrete sandboxed add. -/
theorem C2_desktop_path_computed_witness :
    ∃ entry w',
      add_appimage "MyApp.AppImage".data true (some "/d".data) (some "/h".data) true
          ⟨false, false, false, [], false⟩ ⟨[], []⟩
        = (Except.ok entry, w') ∧
      entry.desktop_file
        = pjoin (apps_dir_of "/d".data "/h".data true)
            ("axec-".data ++ entry.id ++ ".desktop".data) ∧
      (true = true →
        fileExists ⟨apps_dir_of "/d".data "/h".data true,
            "axec-".data ++ entry.id ++ ".desktop".data⟩ ⟨[], []⟩ = false →
        fileExists ⟨apps_dir_of "/d".data "/h".data true,
            "axec-".data ++ entry.id ++ ".desktop".data⟩ w' = false) :=
  C2_desktop_path_computed "MyApp.AppImage".data "/d".data "/h".data true
    ⟨false, false, false, [], false⟩ ⟨[], []⟩

/-! ### Counting the listed entries -/

/-- How many entries of `es` carry the given id and bundle path. -/
def countMatching (es : List AppImageEntry) (i pth : List Char) : Nat :=
  (es.filter (fun e => e.id == i && e.path == pth)).length

theorem filterMap_filter_length_zero
    (l : List (List Char)) (g : List Char → Option AppImageEntry)
    (p : AppImageEntry → Bool) (x : List Char)
    (hx : x ∉ l)
    (hmatch : ∀ f ∈ l, ∀ e, g f = some e → (p e = true ↔ f = x)) :
    ((l.filterMap g).filter p).length = 0 := by
  induction l with
  | nil => rfl
  | cons a as ih =>
    rw [List.filterMap_cons]
    rcases hga : g a with _ | e
    · exact ih (fun h => hx (List.mem_cons_of_mem a h))
        (fun f hf e he => hmatch f (List.mem_cons_of_mem a hf) e he)
    · rw [List.filter_cons]
      have hpe : p e = false := by
        have hiff := hmatch a (List.mem_cons_self a as) e hga
        cases hb : p e with
        | false => rfl
        | true => exact absurd ((hiff.mp hb) ▸ List.mem_cons_self a as) hx
      rw [hpe]
      simp only [Bool.false_eq_true, if_false]
      exact ih (fun h => hx (List.mem_cons_of_mem a h))
        (fun f hf e he => hmatch f (List.mem_cons_of_mem a hf) e he)

theorem filterMap_filter_length_one
    (l : List (List Char)) (g : List Char → Option AppImageEntry)
    (p : AppImageEntry → Bool) (x : List Char)
    (hnd : l.Nodup) (hx : x ∈ l)
    (hmatch : ∀ f ∈ l, ∀ e, g f = some e → (p e = true ↔ f = x))
    (hsome : ∃ e, g x = some e) :
    ((l.filterMap g).filter p).length = 1 := by
  induction l with
  | nil => exact absurd hx (List.not_mem_nil x)
  | cons a as ih =>
    rw [List.filterMap_cons]
    by_cases hax : a = x
    · subst hax
      obtain ⟨ex, hex⟩ := hsome
      rw [hex, List.filter_cons]
      have hpe : p ex = true := (hmatch a (List.mem_cons_self a as) ex hex).mpr rfl
      rw [hpe]
      simp only [if_true, List.length_cons]
      have hz : ((as.filterMap g).filter p).length = 0 :=
        filterMap_filter_length_zero as g p a ((List.nodup_cons.mp hnd).1)
          (fun f hf e he => hmatch f (List.mem_cons_of_mem a hf) e he)
      rw [hz]
    · have hx' : x ∈ as := by
        rcases List.mem_cons.mp hx with h | h
        · exact absurd h.symm hax
        · exact h
      have ih' := ih ((List.nodup_cons.mp hnd).2) hx'
        (fun f hf e he => hmatch f (List.mem_cons_of_mem a hf) e he)
      rcases hga : g a with _ | e
      · exact ih'
      · rw [List.filter_cons]
        have hpe : p e = false := by
          have hiff := hmatch a (List.mem_cons_self a as) e hga
          cases hb : p e with
          | false => rfl
          | true => exact absurd (hiff.mp hb) hax
        rw [hpe]
        simp only [Bool.false_eq_true, if_false]
        exact ih'

theorem read_dir_nodup {dir : List Char} {w : World} (h : w.files.Nodup) :
    (read_dir dir w).Nodup := by
  rw [read_dir]
  apply List.Nodup.map_on ?_ (h.filter _)
  intro x hx y hy hf
  have hxd := (List.mem_filter.mp hx).2
  have hyd := (List.mem_filter.mp hy).2
  rw [beq_iff_eq] at hxd hyd
  cases x
  cases y
  simp only at hxd hyd hf
  subst hxd
  subst hyd
  subst hf
  rfl

theorem mem_read_dir {dir f : List Char} {w : World} (h : (⟨dir, f⟩ : Loc) ∈ w.files) :
    f ∈ read_dir dir w := by
  rw [read_dir]
  exact List.mem_map.mpr ⟨⟨dir, f⟩, List.mem_filter.mpr ⟨h, by simp⟩, rfl⟩

/-- The list-side half of claim C1: in any world whose storage directory holds
`{id}.AppImage` for an `id` that the Identity Deriver reproduces (`hround1`,
`hround2`), `list_apps` returns exactly one entry carrying that id and that
bundle path. -/
theorem add_list_core (dd hd : List Char) (sb : Bool) (w' : World) (id : List Char)
    (hidne : id ≠ [])
    (hround1 : parse_appimage_name (id ++ ".AppImage".data) = id)
    (hround2 : sanitize_filename id = id)
    (hnd' : w'.files.Nodup)
    (hmem : (⟨pjoin dd "axec/appimages".data, id ++ ".AppImage".data⟩ : Loc) ∈ w'.files) :
    ∃ es, (list_apps (some dd) (some hd) sb w').1 = Except.ok es ∧
      countMatching es id
        (pjoin (pjoin dd "axec/appimages".data) (id ++ ".AppImage".data)) = 1 := by
  rw [list_apps_eq]
  refine ⟨_, rfl, ?_⟩
  rw [countMatching]
  apply filterMap_filter_length_one _ _ _ (id ++ ".AppImage".data)
  · exact read_dir_nodup hnd'
  · exact mem_read_dir hmem
  · intro f hf e he
    have hpi := listEntry_path_id _ _ _ _ _ he
    constructor
    · intro hp
      rw [Bool.and_eq_true, beq_iff_eq, beq_iff_eq] at hp
      have hpp : pjoin (pjoin dd "axec/appimages".data) f
          = pjoin (pjoin dd "axec/appimages".data) (id ++ ".AppImage".data) := by
        rw [← hpi.1, hp.2]
      exact pjoin_fname_inj hpp
    · intro hf2
      subst hf2
      rw [Bool.and_eq_true, beq_iff_eq, beq_iff_eq]
      refine ⟨?_, ?_⟩
      · rw [hpi.2, hround1, hround2]
      · rw [hpi.1]
  · have hsplit : (splitFileAtDot (id ++ ".AppImage".data)).2 = some "AppImage".data := by
      rw [show id ++ ".AppImage".data = id ++ '.' :: "AppImage".data from rfl]
      rw [splitFileAtDot_append id "AppImage".data hidne (by decide) (by decide)]
    obtain ⟨e, he, _, _⟩ := listEntry_some (pjoin dd "axec/appimages".data)
      (apps_dir_of dd hd sb) (ensured_world dd hd sb w') (id ++ ".AppImage".data)
      "AppImage".data hsplit (by decide)
    exact ⟨e, he⟩

/-- The entry a successful `add_appimage` returns, as an explicit record
(reduction of the definition; see `add_appimage_eq`). -/
def add_entry (src_fname dd hd : List Char) (sandbox : Bool) (env : ExtractEnv)
    (w : World) : AppImageEntry :=
  let id := sanitize_filename (parse_appimage_name src_fname)
  let stg := pjoin dd "axec/appimages".data
  let dest_fname := id ++ ".AppImage".data
  { id := id,
    name := parse_appimage_name src_fname,
    path := pjoin stg dest_fname,
    icon_path := (extract_icon env (pjoin stg dest_fname) stg id
      (createFile ⟨stg, dest_fname⟩ (ensured_world dd hd sandbox w))).1,
    desktop_file := pjoin (apps_dir_of dd hd sandbox)
      ("axec-".data ++ id ++ ".desktop".data) }

/-- The world a successful `add_appimage` leaves behind, as an explicit term
(reduction of the definition; see `add_appimage_eq`). -/
def add_world (src_fname dd hd : List Char) (sandbox : Bool) (env : ExtractEnv)
    (w : World) : World :=
  let id := sanitize_filename (parse_appimage_name src_fname)
  let stg := pjoin dd "axec/appimages".data
  let dest_fname := id ++ ".AppImage".data
  let w3 := (extract_icon env (pjoin stg dest_fname) stg id
    (createFile ⟨stg, dest_fname⟩ (ensured_world dd hd sandbox w))).2
  if sandbox then w3
  else createFile ⟨apps_dir_of dd hd sandbox, "axec-".data ++ id ++ ".desktop".data⟩ w3

theorem add_appimage_eq (src_fname dd hd : List Char) (sandbox : Bool) (env : ExtractEnv)
    (w : World) :
    add_appimage src_fname true (some dd) (some hd) sandbox env w
      = (Except.ok (add_entry src_fname dd hd sandbox env w),
         add_world src_fname dd hd sandbox env w) := by
  cases sandbox <;> rfl

theorem add_world_mem (src_fname dd hd : List Char) (sandbox : Bool) (env : ExtractEnv)
    (w : World) :
    (⟨pjoin dd "axec/appimages".data,
      sanitize_filename (parse_appimage_name src_fname) ++ ".AppImage".data⟩ : Loc)
    ∈ (add_world src_fname dd hd sandbox env w).files := by
  rw [add_world]
  have hbase : (⟨pjoin dd "axec/appimages".data,
      sanitize_filename (parse_appimage_name src_fname) ++ ".AppImage".data⟩ : Loc)
      ∈ ((extract_icon env
        (pjoin (pjoin dd "axec/appimages".data)
          (sanitize_filename (parse_appimage_name src_fname) ++ ".AppImage".data))
        (pjoin dd "axec/appimages".data)
        (sanitize_filename (parse_appimage_name src_fname))
        (createFile ⟨pjoin dd "axec/appimages".data,
            sanitize_filename (parse_appimage_name src_fname) ++ ".AppImage".data⟩
          (ensured_world dd hd sandbox w))).2).files := by
    rcases extract_icon_world env
        (pjoin (pjoin dd "axec/appimages".data)
          (sanitize_filename (parse_appimage_name src_fname) ++ ".AppImage".data))
        (pjoin dd "axec/appimages".data)
        (sanitize_filename (parse_appimage_name src_fname))
        (createFile ⟨pjoin dd "axec/appimages".data,
            sanitize_filename (parse_appimage_name src_fname) ++ ".AppImage".data⟩
          (ensured_world dd hd sandbox w)) with hw | ⟨ext, hext, hw⟩
    · rw [hw]
      exact mem_createFile_self _ _
    · rw [hw]
      exact mem_createFile_of_mem (mem_createFile_self _ _)
        (loc_ne_of_fname_ne (Ne.symm (icon_ne_bundleA _ _ ext hext)))
  cases sandbox with
  | true => exact hbase
  | false =>
    simp only [Bool.false_eq_true, if_false]
    exact mem_createFile_of_mem hbase
      (loc_ne_of_fname_ne (Ne.symm (desktop_ne_bundleA _ _)))

theorem add_world_nodup (src_fname dd hd : List Char) (sandbox : Bool) (env : ExtractEnv)
    (w : World) (hnd : w.files.Nodup) :
    (add_world src_fname dd hd sandbox env w).files.Nodup := by
  rw [add_world]
  have hbase : (((extract_icon env
        (pjoin (pjoin dd "axec/appimages".data)
          (sanitize_filename (parse_appimage_name src_fname) ++ ".AppImage".data))
        (pjoin dd "axec/appimages".data)
        (sanitize_filename (parse_appimage_name src_fname))
        (createFile ⟨pjoin dd "axec/appimages".data,
            sanitize_filename (parse_appimage_name src_fname) ++ ".AppImage".data⟩
          (ensured_world dd hd sandbox w))).2).files).Nodup := by
    rcases extract_icon_world env
        (pjoin (pjoin dd "axec/appimages".data)
          (sanitize_filename (parse_appimage_name src_fname) ++ ".AppImage".data))
        (pjoin dd "axec/appimages".data)
        (sanitize_filename (parse_appimage_name src_fname))
        (createFile ⟨pjoin dd "axec/appimages".data,
            sanitize_filename (parse_appimage_name src_fname) ++ ".AppImage".data⟩
          (ensured_world dd hd sandbox w)) with hw | ⟨ext, hext, hw⟩
    · rw [hw]
      exact nodup_createFile _ hnd
    · rw [hw]
      exact nodup_createFile _ (nodup_createFile _ hnd)
  cases sandbox with
  | true => exact hbase
  | false =>
    simp only [Bool.false_eq_true, if_false]
    exact nodup_createFile _ hbase

set_option maxHeartbeats 2000000 in
/-- Claim C1: for every source filename whose derived id is nonempty, a
successful `add_appimage` stores the bundle as `{id}.AppImage`, returns that
id and path, and a subsequent `list_apps` — which re-derives the id from the
stored file name — returns exactly one entry whose id is the id returned by
the add and whose path is the stored bundle path. -/
theorem C1_add_then_list (src_fname dd hd : List Char) (sandbox : Bool) (env : ExtractEnv)
    (w : World) (hnd : w.files.Nodup)
    (hid : sanitize_filename (parse_appimage_name src_fname) ≠ []) :
    ∃ entry w',
      add_appimage src_fname true (some dd) (some hd) sandbox env w
        = (Except.ok entry, w') ∧
      entry.id = sanitize_filename (parse_appimage_name src_fname) ∧
      entry.path = pjoin (pjoin dd "axec/appimages".data) (entry.id ++ ".AppImage".data) ∧
      fileExists ⟨pjoin dd "axec/appimages".data, entry.id ++ ".AppImage".data⟩ w' = true ∧
      ∃ es, (list_apps (some dd) (some hd) sandbox w').1 = Except.ok es ∧
        countMatching es entry.id entry.path = 1 := by
  have hround := id_roundtrip src_fname hid
  refine ⟨add_entry src_fname dd hd sandbox env w, add_world src_fname dd hd sandbox env w,
    add_appimage_eq src_fname dd hd sandbox env w, rfl, rfl, ?_, ?_⟩
  · exact fileExists_iff_mem.mpr (add_world_mem src_fname dd hd sandbox env w)
  · exact add_list_core dd hd sandbox (add_world src_fname dd hd sandbox env w)
      (sanitize_filename (parse_appimage_name src_fname)) hid hround.1 hround.2
      (add_world_nodup src_fname dd hd sandbox env w hnd)
      (add_world_mem src_fname dd hd sandbox env w)

/-- Witness for C1: adding `MyApp.AppImage` to the empty world and listing. -/
theorem C1_add_then_list_witness :
    ∃ entry w',
      add_appimage "MyApp.AppImage".data true (some "/d".data) (some "/h".data) false
          ⟨false, false, false, [], false⟩ ⟨[], []⟩
        = (Except.ok entry, w') ∧
      entry.id = sanitize_filename (parse_appimage_name "MyApp.AppImage".data) ∧
      entry.path = pjoin (pjoin "/d".data "axec/appimages".data)
        (entry.id ++ ".AppImage".data) ∧
      fileExists ⟨pjoin "/d".data "axec/appimages".data, entry.id ++ ".AppImage".data⟩ w'
        = true ∧
      ∃ es, (list_apps (some "/d".data) (some "/h".data) false w').1 = Except.ok es ∧
        countMatching es entry.id entry.path = 1 :=
  C1_add_then_list "MyApp.AppImage".data "/d".data "/h".data false
    ⟨false, false, false, [], false⟩ ⟨[], []⟩ (by decide) (by decide)

/-- Witness for C8: an empty storage yields not-found with nothing spawned; a
stored `foo.AppImage` is spawned successfully. -/
theorem C8_launch_witness :
    ((launch_app "foo".data (some "/d".data) (some "/h".data) false
        (fun _ => Except.ok ()) ⟨[], []⟩).1
      = (Except.error "AppImage not found".data, [])) ∧
    ((launch_app "foo".data (some "/d".data) (some "/h".data) false
        (fun _ => Except.ok ())
        ⟨[⟨"/d/axec/appimages".data, "foo.AppImage".data⟩], []⟩).1
      = (Except.ok (),
         [pjoin (pjoin "/d".data "axec/appimages".data)
           ("foo".data ++ ".AppImage".data)])) := by
  constructor
  · exact ((C8_launch "foo".data "/d".data "/h".data false
      (fun _ => Except.ok ()) ⟨[], []⟩).1 rfl rfl).1
  · exact (C8_launch "foo".data "/d".data "/h".data false
      (fun _ => Except.ok ())
      ⟨[⟨"/d/axec/appimages".data, "foo.AppImage".data⟩], []⟩).2.1 (by decide) rfl

end Axec
